import Mathlib

/-!
Verification development for the Model-Context-Protocol-MCP repository.

The repository ships a React frontend (03/frontend/src/App.jsx) together with a
Query Safety Gateway backend (SQL sanitizer, schema allowlist cache, token
bucket rate limiter, query orchestrator).  The backend scripts (MCP Server.py,
MCP Proxy.py) are not part of the provided sources, so the gateway components
are modelled from the specification text; the frontend definitions are
translated directly from App.jsx.

Strings are embedded as lists of characters (String.data).
-/

set_option maxHeartbeats 1000000

/-! ## Basic character-list utilities -/

/-- A character that is not whitespace. -/
def nonWS (c : Char) : Bool := !c.isWhitespace

/-- Case-insensitive normalisation of a token: map every character to upper case. -/
def upperTok (t : List Char) : List Char := t.map Char.toUpper

/-- Whether the first list is a prefix of the second. -/
def startsWith : List Char → List Char → Bool
  | [], _ => true
  | _ :: _, [] => false
  | p :: ps, c :: cs => (p == c) && startsWith ps cs

/-- Whether the pattern occurs as a contiguous run inside the text. -/
def containsSeq (pat : List Char) : List Char → Bool
  | [] => pat.isEmpty
  | c :: rest => startsWith pat (c :: rest) || containsSeq pat rest

/-! ## Decimal rendering and parsing of natural numbers -/

/-- The decimal digit character for a digit value below ten. -/
def digitChar (d : Nat) : Char := Char.ofNat (48 + d)

/-- Fuel-driven accumulator loop producing the decimal digits of a number. -/
def renderNatAux : Nat → Nat → List Char → List Char
  | 0, _, acc => acc
  | fuel + 1, n, acc =>
    if n = 0 then acc else renderNatAux fuel (n / 10) (digitChar (n % 10) :: acc)

/-- Decimal rendering of a natural number. -/
def renderNat (n : Nat) : List Char := if n = 0 then ['0'] else renderNatAux n n []

/-- Numeric value of a decimal digit character. -/
def digitVal (c : Char) : Nat := c.toNat - 48

/-- Value of a big-endian decimal digit string. -/
def parseVal (cs : List Char) : Nat := cs.foldl (fun a c => a * 10 + digitVal c) 0

/-- Parse a non-empty all-digit string as a natural number. -/
def parseNat (cs : List Char) : Option Nat :=
  if cs ≠ [] ∧ cs.all Char.isDigit then some (parseVal cs) else none

/-! ## Whitespace tokenizer -/

/-- Accumulator loop splitting a character list into maximal whitespace-free runs. -/
def tokenizeAux : List Char → List Char → List (List Char)
  | [], acc => if acc = [] then [] else [acc.reverse]
  | c :: rest, acc =>
    if c.isWhitespace then
      (if acc = [] then [] else [acc.reverse]) ++ tokenizeAux rest []
    else tokenizeAux rest (c :: acc)

/-- Split a character list into whitespace-separated tokens. -/
def tokenize (cs : List Char) : List (List Char) := tokenizeAux cs []

/-- Join tokens back into a character list with single spaces between them. -/
def unwords : List (List Char) → List Char
  | [] => []
  | [t] => t
  | t :: t2 :: ts => t ++ ' ' :: unwords (t2 :: ts)

/-! ## SQL Sanitizer / Validator

Modelled from the spec: the backend script MCP Server.py holding the SQL
Sanitizer is not among the provided sources, so the component is built from
the specification of section 4.3 (checks run in order: statement count,
comments, verb, forbidden keywords, table allowlist, row-limit wrapping). -/

/-- Modelled from the spec: statement-count scanner of the missing Sanitizer.
Walks the text tracking whether the position is inside a single-quoted string
literal; returns true when a bare semicolon outside a string literal is
followed by any non-whitespace content. -/
def scanSemis : List Char → Bool → Bool
  | [], _ => false
  | c :: rest, inStr =>
    if c = '\'' then scanSemis rest (!inStr)
    else if inStr = false ∧ c = ';' then rest.any nonWS
    else scanSemis rest inStr

/-- The line comment marker of SQL. -/
def lineCommentMark : List Char := "--".data

/-- The block comment opening marker of SQL. -/
def blockCommentMark : List Char := "/*".data

/-- Modelled from the spec: comment detection of the missing Sanitizer; true
when the text contains a line or block comment marker. -/
def hasComment (cs : List Char) : Bool :=
  containsSeq lineCommentMark cs || containsSeq blockCommentMark cs

/-- The first non-whitespace token of the text. -/
def firstToken (cs : List Char) : List Char :=
  (cs.dropWhile Char.isWhitespace).takeWhile nonWS

/-- The SELECT keyword. -/
def kwSELECT : List Char := "SELECT".data

/-- Modelled from the spec: verb check of the missing Sanitizer; the first
non-whitespace token, case-insensitively, must be SELECT. -/
def verbOk (cs : List Char) : Bool := upperTok (firstToken cs) == kwSELECT

/-- Modelled from the spec: forbidden-keyword scan of the missing Sanitizer;
the policy is a configurable set of denied substrings matched
case-insensitively anywhere in the text. -/
def forbiddenHit (forbidden : List (List Char)) (cs : List Char) : Bool :=
  forbidden.any (fun p => containsSeq p (upperTok cs))

/-- Modelled from the spec: an AllowlistEntry of the missing Schema Allowlist
Cache, a table name with its columns (name and type). -/
structure AllowlistEntry where
  table : List Char
  columns : List (List Char × List Char)
  deriving DecidableEq

/-- Modelled from the spec: the describe lookup of the missing Schema
Allowlist Cache; finds the entry whose table name matches case-insensitively. -/
def describeTable (name : List Char) (al : List AllowlistEntry) : Option AllowlistEntry :=
  al.find? (fun e => upperTok e.table == upperTok name)

/-- The FROM keyword. -/
def kwFROM : List Char := "FROM".data

/-- The JOIN keyword. -/
def kwJOIN : List Char := "JOIN".data

/-- Modelled from the spec: conservative table-name extraction of the missing
Sanitizer; the token following each FROM or JOIN token is a referenced table. -/
def extractTables : List (List Char) → List (List Char)
  | [] => []
  | t :: rest =>
    if upperTok t = kwFROM ∨ upperTok t = kwJOIN then
      match rest with
      | [] => []
      | tbl :: rest2 => tbl :: extractTables rest2
    else extractTables rest

/-- Modelled from the spec: the table allowlist check of the missing Sanitizer;
every extracted table must resolve through the allowlist cache. -/
def tablesOk (al : List AllowlistEntry) (cs : List Char) : Bool :=
  (extractTables (tokenize cs)).all (fun t => (describeTable t al).isSome)

/-- The LIMIT keyword. -/
def kwLIMIT : List Char := "LIMIT".data

/-- Modelled from the spec: locate the LIMIT clause of the missing Sanitizer.
Scans the token list for a LIMIT token whose following token parses as a
number; returns the first such numeric value. -/
def findLimit : List (List Char) → Option Nat
  | [] => none
  | t :: rest =>
    if upperTok t = kwLIMIT then
      match rest with
      | [] => none
      | v :: _ =>
        match parseNat v with
        | some n => some n
        | none => findLimit rest
    else findLimit rest

/-- Modelled from the spec: rewrite the value of the first numeric LIMIT
clause down to the configured ceiling. -/
def replaceLimitVal (maxRows : Nat) : List (List Char) → List (List Char)
  | [] => []
  | t :: rest =>
    if upperTok t = kwLIMIT then
      match rest with
      | [] => [t]
      | v :: rest2 =>
        match parseNat v with
        | some _ => t :: renderNat maxRows :: rest2
        | none => t :: replaceLimitVal maxRows rest
    else t :: replaceLimitVal maxRows rest

/-- The text appended to a statement that carries no LIMIT clause. -/
def limitSuffix (maxRows : Nat) : List Char := ' ' :: (kwLIMIT ++ ' ' :: renderNat maxRows)

/-- Modelled from the spec: row-limit wrapping of the missing Sanitizer; a
statement with no LIMIT clause gets one appended, a LIMIT above the ceiling is
rewritten down to the ceiling, and a LIMIT at or below the ceiling is kept. -/
def wrapLimit (maxRows : Nat) (cs : List Char) : List Char :=
  match findLimit (tokenize cs) with
  | none => cs ++ limitSuffix maxRows
  | some n => if maxRows < n then unwords (replaceLimitVal maxRows (tokenize cs)) else cs

/-- Modelled from the spec: the explicit row cap carried by the sanitized
statement. -/
def capOf (maxRows : Nat) (cs : List Char) : Nat :=
  match findLimit (tokenize cs) with
  | none => maxRows
  | some n => min n maxRows

/-- Modelled from the spec: SafeQuery, the only form ever passed to execution. -/
structure SafeQuery where
  statement : List Char
  target_table : List Char
  row_limit : Nat
  deriving DecidableEq

/-- Modelled from the spec: the distinct rejection reason codes of the missing
Sanitizer. -/
inductive RejectReason where
  | MultiStatement
  | CommentDetected
  | NonSelectVerb
  | ForbiddenKeyword
  | TableNotAllowed
  deriving DecidableEq

/-- Result of sanitization: a SafeQuery or a typed rejection. -/
inductive SanitizeResult where
  | ok (sq : SafeQuery)
  | reject (r : RejectReason)
  deriving DecidableEq

/-- Modelled from the spec: the SQL Sanitizer of the missing backend script
MCP Server.py.  Checks run in order and fail fast: statement count, comment
markers, SELECT-only verb, forbidden keywords, table allowlist; on success the
statement is row-limit wrapped and emitted as a SafeQuery. -/
def sanitize (al : List AllowlistEntry) (forbidden : List (List Char)) (maxRows : Nat)
    (cs : List Char) : SanitizeResult :=
  if scanSemis cs false then .reject .MultiStatement
  else if hasComment cs then .reject .CommentDetected
  else if !verbOk cs then .reject .NonSelectVerb
  else if forbiddenHit forbidden cs then .reject .ForbiddenKeyword
  else if !tablesOk al cs then .reject .TableNotAllowed
  else .ok ⟨wrapLimit maxRows cs, (extractTables (tokenize cs)).headD [], capOf maxRows cs⟩

/-! ## Token Bucket Limiter

Modelled from the spec: the rate limiter of the missing backend scripts. -/

/-- Modelled from the spec: a Bucket, with integer capacity, fractional token
count, refill rate in tokens per second and the last refill timestamp. -/
structure Bucket where
  capacity : ℤ
  tokens : ℚ
  refill_rate : ℚ
  last_refill : ℚ
  deriving DecidableEq

/-- Modelled from the spec: the result of an acquire call, Allowed or Denied
with an estimated wait time. -/
inductive AcquireResult where
  | allowed
  | denied (retry_after : ℚ)
  deriving DecidableEq

/-- Modelled from the spec: acquire computes the elapsed time since the last
refill, adds elapsed times refill rate tokens capped at capacity, then either
deducts the cost and allows, or denies with the estimated wait time. -/
def acquire (now : ℚ) (cost : ℚ) (b : Bucket) : AcquireResult × Bucket :=
  let elapsed := now - b.last_refill
  let t := min (b.tokens + elapsed * b.refill_rate) (b.capacity : ℚ)
  if cost ≤ t then (.allowed, { b with tokens := t - cost, last_refill := now })
  else (.denied ((cost - t) / b.refill_rate), { b with tokens := t, last_refill := now })

/-- A sequence of unit-cost acquire calls against one bucket, all at the same
instant; returns the list of results and the final bucket. -/
def acquireSeq (now : ℚ) : Nat → Bucket → List AcquireResult × Bucket
  | 0, b => ([], b)
  | n + 1, b =>
    let rb := acquire now 1 b
    let rest := acquireSeq now n rb.2
    (rb.1 :: rest.1, rest.2)

/-- Modelled from the spec: a freshly created bucket starts full, with its
token count at capacity. -/
def mkBucket (c : Nat) (r t0 : ℚ) : Bucket := ⟨(c : ℤ), (c : ℚ), r, t0⟩

/-! ## Query Orchestrator

Modelled from the spec: the per-request state machine of the missing backend. -/

/-- Modelled from the spec: the source of a candidate query, generated by the
LLM collaborator or accepted verbatim from the raw-SQL path. -/
inductive Source where
  | Generated
  | Manual
  deriving DecidableEq

/-- Modelled from the spec: a QueryResult produced by execution. -/
structure QueryResult where
  columns : List (List Char)
  rows : List (List (List Char))
  returned_count : Nat
  truncated : Bool
  deriving DecidableEq

/-- Modelled from the spec: the terminal failure reasons of the orchestrator. -/
inductive FailReason where
  | GenerationFailed
  | SanitizationRejected (r : RejectReason)
  | ExecutionError
  deriving DecidableEq

/-- Modelled from the spec: the terminal outcome of one orchestration cycle. -/
inductive Outcome where
  | RateLimited (retry_after : ℚ)
  | Failed (r : FailReason)
  | Completed (sql : List Char) (summary : List Char)
      (rows : List (List (List Char))) (returned : Nat)
  deriving DecidableEq

/-- An observable external call made during one orchestration cycle: an LLM
collaborator call or a database execution of a statement. -/
inductive Effect where
  | LlmCall
  | DbCall (stmt : List Char)
  deriving DecidableEq

/-- Modelled from the spec: the templated summary used when LLM summarization
degrades. -/
def summaryTemplate (n : Nat) : List Char := "Returned ".data ++ renderNat n ++ " rows".data

/-- Modelled from the spec: the Executing and Summarizing stages; the SafeQuery
statement is executed, the rows are truncated to the response cap, and the
summary degrades gracefully to a template when the LLM summarizer fails.  The
summarization attempt is recorded as an LLM call in either case. -/
def runSafe (respCap : Nat) (sq : SafeQuery) (db : List Char → Option QueryResult)
    (llmSum : Option (List Char)) (eff : List Effect) : Outcome × List Effect :=
  match db sq.statement with
  | none => (.Failed .ExecutionError, eff ++ [.DbCall sq.statement])
  | some qr =>
    let summary := match llmSum with
      | some s => s
      | none => summaryTemplate qr.returned_count
    (.Completed sq.statement summary (qr.rows.take respCap) qr.returned_count,
      eff ++ [.DbCall sq.statement, .LlmCall])

/-- The candidate SQL text the Sanitizer receives: the raw text on the manual
path, the LLM draft on the generated path. -/
def candidateOf (source : Source) (llmDraft : Option (List Char)) (raw : List Char) : List Char :=
  match source with
  | .Manual => raw
  | .Generated => llmDraft.getD []

/-- Modelled from the spec: the Query Orchestrator of the missing backend; one
question-answer cycle.  The global limiter is consulted first, then the
per-tool limiter; a denial short-circuits to RateLimited with the retry hint
and no LLM or database call.  The generated path drafts through the LLM
collaborator; the manual path skips drafting.  Either way the candidate passes
through the identical Sanitizer before any execution. -/
def orchestrate (al : List AllowlistEntry) (forbidden : List (List Char))
    (maxRows respCap : Nat) (gb tb : Bucket) (now : ℚ) (source : Source)
    (llmDraft : Option (List Char)) (raw : List Char)
    (db : List Char → Option QueryResult) (llmSum : Option (List Char)) :
    Outcome × List Effect :=
  match (acquire now 1 gb).1 with
  | .denied w => (.RateLimited w, [])
  | .allowed =>
    match (acquire now 1 tb).1 with
    | .denied w => (.RateLimited w, [])
    | .allowed =>
      match source with
      | .Manual =>
        match sanitize al forbidden maxRows raw with
        | .reject r => (.Failed (.SanitizationRejected r), [])
        | .ok sq => runSafe respCap sq db llmSum []
      | .Generated =>
        match llmDraft with
        | none => (.Failed .GenerationFailed, [.LlmCall])
        | some text =>
          match sanitize al forbidden maxRows text with
          | .reject r => (.Failed (.SanitizationRejected r), [.LlmCall])
          | .ok sq => runSafe respCap sq db llmSum [.LlmCall]

/-! ## Frontend chat UI (from 03/frontend/src/App.jsx) -/

/-- The single chat exchange held by the App component (question, answer,
timestamp), from App.jsx. -/
structure Exchange where
  question : List Char
  answer : List Char
  ts : Nat
  deriving DecidableEq

/-- The pieces of React state of the App component that askMessage reads or
writes, from App.jsx. -/
structure UIState where
  selectedTable : List Char
  exchange : Exchange
  input : List Char
  rawSqlQuery : List Char
  statusText : List Char
  rowsText : List Char
  isWaiting : Bool
  deriving DecidableEq

/-- The JSON body askMessage posts to the ask endpoint, from App.jsx: exactly
the fields question, table_hint and max_rows. -/
structure AskRequest where
  question : List Char
  table_hint : List Char
  max_rows : Nat
  deriving DecidableEq

/-- The JSON response fields askMessage reads, from App.jsx; every field may be
absent. -/
structure AskResponse where
  sql : Option (List Char)
  summary : Option (List Char)
  rows : Option (List (List (List Char)))
  returned : Option Nat
  deriving DecidableEq

/-- The JavaScript logical-or fallback over possibly absent strings: an absent
or empty string picks the default (the empty string is falsy). -/
def jsOr (o : Option (List Char)) (d : List Char) : List Char :=
  match o with
  | some v => if v = [] then d else v
  | none => d

/-- The JavaScript String.prototype.trim: strip whitespace at both ends. -/
def trimJS (cs : List Char) : List Char :=
  ((cs.dropWhile Char.isWhitespace).reverse.dropWhile Char.isWhitespace).reverse

/-- The fallback table hint used by askMessage when no table is selected. -/
def defaultTableHint : List Char := "supplement_sales_weekly".data

/-- The placeholder answer set while a request is in flight. -/
def thinkingMsg : List Char := "Thinking…".data

/-- The answer set on a successful request (the template literal in App.jsx,
whose trim is itself, so the falsy fallback never fires). -/
def successMsg : List Char := "✅ Query completed successfully.".data

/-- The fallback text shown when the response carries no SQL. -/
def noSqlMsg : List Char := "(No SQL returned)".data

/-- The rows text shown on a failed request. -/
def noRowsMsg : List Char := "(No rows)".data

/-- The prefix of an error message shown in the chat and the status panel. -/
def errorMark : List Char := "Error: ".data

/-- The fallback status line naming the returned row count. -/
def queryReturnedMsg (n : Nat) : List Char :=
  "Query returned ".data ++ renderNat n ++ " rows".data

/-- The rows panel text: returned count and a JSON sample of the first rows. -/
def rowsTextMsg (returned sampleLen : Nat) (sampleJson : List Char) : List Char :=
  "Returned: ".data ++ renderNat returned ++ "\n\nSample (first ".data ++
    renderNat sampleLen ++ " rows):\n".data ++ sampleJson

/-- The askMessage handler of App.jsx.  The fetch outcome and the JSON
serializer (a browser builtin) are passed in as collaborators; the function
returns the final UI state together with the request posted to the ask
endpoint, or none when the guard returns early. -/
def askMessage (now : Nat) (text : List Char) (s : UIState)
    (fetchResult : Except (List Char) AskResponse)
    (stringify : List (List (List Char)) → List Char) : UIState × Option AskRequest :=
  let trimmed := trimJS text
  if trimmed = [] ∨ s.isWaiting then (s, none)
  else
    let req : AskRequest :=
      ⟨trimmed, if s.selectedTable = [] then defaultTableHint else s.selectedTable, 100⟩
    let s1 := { s with exchange := ⟨trimmed, thinkingMsg, now⟩, input := [], isWaiting := true }
    match fetchResult with
    | .ok data =>
      let returned := data.returned.getD 0
      let sample := (data.rows.getD []).take 5
      ({ s1 with
          rawSqlQuery := jsOr data.sql noSqlMsg,
          statusText := jsOr data.summary (queryReturnedMsg returned),
          rowsText := rowsTextMsg returned sample.length (stringify sample),
          exchange := { s1.exchange with answer := successMsg },
          isWaiting := false }, some req)
    | .error msg =>
      ({ s1 with
          exchange := { s1.exchange with answer := errorMark ++ msg },
          statusText := errorMark ++ msg,
          rawSqlQuery := noSqlMsg,
          rowsText := noRowsMsg,
          isWaiting := false }, some req)

/-! ## Concrete inputs used by witnesses and counterexamples -/

/-- An allowlist snapshot holding only the sales table. -/
def alSales : List AllowlistEntry := [⟨"sales".data, []⟩]

/-- Scenario input: a stacked second statement after the semicolon. -/
def inputScenario1 : List Char := "SELECT * FROM sales; DROP TABLE sales;".data

/-- The part of the scenario input before its first semicolon. -/
def preScenario1 : List Char := "SELECT * FROM sales".data

/-- The part of the scenario input after its first semicolon. -/
def postScenario1 : List Char := " DROP TABLE sales;".data

/-- A query holding a semicolon inside a string literal. -/
def inputQuoteSemi : List Char := "SELECT * FROM sales WHERE note = 'a;b'".data

/-- The part of the string-literal query before its semicolon. -/
def preQuote : List Char := "SELECT * FROM sales WHERE note = 'a".data

/-- The part of the string-literal query after its semicolon. -/
def postQuote : List Char := "b'".data

/-- A non-SELECT statement with no semicolon and no comment. -/
def inputDropTable : List Char := "DROP TABLE sales".data

/-- A non-SELECT statement that also stacks a second statement. -/
def inputDeleteMulti : List Char := "DELETE FROM sales; DROP TABLE sales;".data

/-- Scenario input referencing a table outside the allowlist. -/
def inputUsers : List Char := "SELECT * FROM users".data

/-- The table name referenced by the users queries. -/
def usersName : List Char := "users".data

/-- A non-SELECT statement referencing a table outside the allowlist. -/
def inputDeleteUsers : List Char := "DELETE FROM users".data

/-- Scenario input carrying a line comment. -/
def inputComment : List Char := "SELECT name FROM sales -- comment".data

/-- The part of the comment scenario before the line comment marker. -/
def aComment : List Char := "SELECT name FROM sales ".data

/-- The part of the comment scenario after the line comment marker. -/
def bComment : List Char := " comment".data

/-- A query with a stacked statement whose trailing content is a comment. -/
def inputSemiComment : List Char := "SELECT * FROM sales; -- hi".data

/-! ## Statement-count check: lemmas -/

/-- If the content after some bare semicolon holds a non-whitespace character
and the quote parity of the prefix matches the scanner state, the
statement-count scanner fires. -/
lemma scanSemis_split (pre post : List Char) (b : Bool)
    (hpost : post.any nonWS = true)
    (hb : (pre.count '\'' + cond b 1 0) % 2 = 0) :
    scanSemis (pre ++ ';' :: post) b = true := by
  induction pre generalizing b with
  | nil =>
    have hb0 : b = false := by cases b <;> simp_all
    subst hb0
    simp [scanSemis, hpost]
  | cons c pre ih =>
    by_cases hq : c = '\''
    · subst hq
      rw [List.cons_append]
      simp only [scanSemis, if_pos rfl]
      apply ih
      rw [List.count_cons_self] at hb
      cases b <;>
        simp only [Bool.not_true, Bool.not_false, Bool.cond_true, Bool.cond_false] at hb ⊢ <;>
        omega
    · have hcount : (c :: pre).count '\'' = pre.count '\'' :=
        List.count_cons_of_ne (fun h => hq h.symm) pre
      rw [List.cons_append]
      by_cases hs : c = ';'
      · subst hs
        cases b with
        | false =>
          have hcond : ((false : Bool) = false ∧ (';' : Char) = ';') := ⟨rfl, rfl⟩
          simp only [scanSemis, if_neg hq, if_pos hcond]
          rw [List.any_append, List.any_cons]
          have hsemi : nonWS ';' = true := by decide
          simp [hsemi]
        | true =>
          have hcond : ¬ ((true : Bool) = false ∧ (';' : Char) = ';') := by simp
          simp only [scanSemis, if_neg hq, if_neg hcond]
          apply ih
          rwa [hcount] at hb
      · have hcond : ¬ (b = false ∧ c = ';') := fun h => hs h.2
        simp only [scanSemis, if_neg hq, if_neg hcond]
        apply ih
        rwa [hcount] at hb

/-- C1 (amended): for every candidate text containing a semicolon that is not
inside a string literal (even count of quotes before it) followed by any
non-whitespace content, the Sanitizer rejects with MultiStatement. -/
theorem semicolon_multistatement_reject (al : List AllowlistEntry)
    (forbidden : List (List Char)) (maxRows : Nat) (pre post : List Char)
    (hpre : pre.count '\'' % 2 = 0) (hpost : post.any nonWS = true) :
    sanitize al forbidden maxRows (pre ++ ';' :: post) = .reject .MultiStatement := by
  have h := scanSemis_split pre post false hpost (by simpa using hpre)
  simp [sanitize, h]

/-- C1 witness: the scenario input SELECT * FROM sales; DROP TABLE sales; is
rejected with MultiStatement. -/
theorem semicolon_multistatement_reject_witness :
    inputScenario1 = preScenario1 ++ ';' :: postScenario1 ∧
    sanitize alSales [] 100 (preScenario1 ++ ';' :: postScenario1) =
      .reject .MultiStatement :=
  ⟨by decide,
    semicolon_multistatement_reject alSales [] 100 preScenario1 postScenario1
      (by decide) (by decide)⟩

/-- C1 counterexample: a semicolon inside a string literal is followed by
non-whitespace, non-comment content, yet the Sanitizer accepts the query, so
the claim as stated (rejection for every semicolon followed by non-whitespace,
non-comment content) fails. -/
theorem semicolon_in_string_literal_accepted :
    inputQuoteSemi = preQuote ++ ';' :: postQuote ∧
    postQuote.any nonWS = true ∧
    sanitize alSales [] 100 inputQuoteSemi =
      .ok ⟨"SELECT * FROM sales WHERE note = 'a;b' LIMIT 100".data, "sales".data, 100⟩ :=
  ⟨by decide, by decide, by decide⟩

/-! ## Verb check, table allowlist check and comment check -/

/-- C2 (amended): a candidate whose first non-whitespace token is not SELECT
(case-insensitively) is never turned into a SafeQuery, and when it passes the
earlier statement-count and comment checks the rejection reason is
NonSelectVerb. -/
theorem nonselect_verb_reject (al : List AllowlistEntry) (forbidden : List (List Char))
    (maxRows : Nat) (cs : List Char) (hv : upperTok (firstToken cs) ≠ kwSELECT) :
    (∀ sq, sanitize al forbidden maxRows cs ≠ .ok sq) ∧
    (scanSemis cs false = false → hasComment cs = false →
      sanitize al forbidden maxRows cs = .reject .NonSelectVerb) := by
  have hv' : verbOk cs = false := by
    rw [verbOk, beq_eq_false_iff_ne]
    exact hv
  constructor
  · intro sq hok
    cases h1 : scanSemis cs false with
    | true => simp [sanitize, h1] at hok
    | false =>
      cases h2 : hasComment cs with
      | true => simp [sanitize, h1, h2] at hok
      | false => simp [sanitize, h1, h2, hv'] at hok
  · intro h1 h2
    simp [sanitize, h1, h2, hv']

/-- C2 witness: DROP TABLE sales is rejected with NonSelectVerb. -/
theorem nonselect_verb_reject_witness :
    sanitize alSales [] 100 inputDropTable = .reject .NonSelectVerb :=
  (nonselect_verb_reject alSales [] 100 inputDropTable (by decide)).2 (by decide) (by decide)

/-- C2 counterexample: DELETE FROM sales; DROP TABLE sales; has a non-SELECT
first token but is rejected with MultiStatement, not NonSelectVerb, because
the statement-count check runs first; the claim as stated (rejection reason
NonSelectVerb for every non-SELECT candidate) fails. -/
theorem multistatement_preempts_nonselect_verb :
    upperTok (firstToken inputDeleteMulti) ≠ kwSELECT ∧
    sanitize alSales [] 100 inputDeleteMulti = .reject .MultiStatement ∧
    sanitize alSales [] 100 inputDeleteMulti ≠ .reject .NonSelectVerb :=
  ⟨by decide, by decide, by decide⟩

/-- C3 (amended): a candidate referencing a table absent from the allowlist
snapshot is never turned into a SafeQuery, and when it passes the earlier
statement-count, comment, verb and forbidden-keyword checks the rejection
reason is TableNotAllowed. -/
theorem table_allowlist_reject (al : List AllowlistEntry) (forbidden : List (List Char))
    (maxRows : Nat) (cs : List Char) (t : List Char)
    (ht : t ∈ extractTables (tokenize cs)) (hd : describeTable t al = none) :
    (∀ sq, sanitize al forbidden maxRows cs ≠ .ok sq) ∧
    (scanSemis cs false = false → hasComment cs = false → verbOk cs = true →
      forbiddenHit forbidden cs = false →
      sanitize al forbidden maxRows cs = .reject .TableNotAllowed) := by
  have hall : tablesOk al cs = false := by
    cases h : tablesOk al cs with
    | false => rfl
    | true =>
      exfalso
      rw [tablesOk] at h
      have h2 := List.all_eq_true.mp h t ht
      rw [hd] at h2
      simp at h2
  constructor
  · intro sq hok
    cases h1 : scanSemis cs false with
    | true => simp [sanitize, h1] at hok
    | false =>
      cases h2 : hasComment cs with
      | true => simp [sanitize, h1, h2] at hok
      | false =>
        cases h3 : verbOk cs with
        | false => simp [sanitize, h1, h2, h3] at hok
        | true =>
          cases h4 : forbiddenHit forbidden cs with
          | true => simp [sanitize, h1, h2, h3, h4] at hok
          | false => simp [sanitize, h1, h2, h3, h4, hall] at hok
  · intro h1 h2 h3 h4
    simp [sanitize, h1, h2, h3, h4, hall]

/-- C3 witness: SELECT * FROM users against an allowlist holding only sales is
rejected with TableNotAllowed. -/
theorem table_allowlist_reject_witness :
    sanitize alSales [] 100 inputUsers = .reject .TableNotAllowed :=
  (table_allowlist_reject alSales [] 100 inputUsers usersName (by decide) (by decide)).2
    (by decide) (by decide) (by decide) (by decide)

/-- C3 counterexample: DELETE FROM users references a table absent from the
allowlist yet is rejected with NonSelectVerb, not TableNotAllowed, because the
verb check runs first; the claim as stated (reason TableNotAllowed regardless
of verb validity) fails. -/
theorem verb_check_preempts_table_allowlist :
    usersName ∈ extractTables (tokenize inputDeleteUsers) ∧
    describeTable usersName alSales = none ∧
    sanitize alSales [] 100 inputDeleteUsers = .reject .NonSelectVerb ∧
    sanitize alSales [] 100 inputDeleteUsers ≠ .reject .TableNotAllowed :=
  ⟨by decide, by decide, by decide, by decide⟩

/-- The pattern heads every list obtained by pasting the pattern onto a tail. -/
lemma startsWith_append_self (p b : List Char) : startsWith p (p ++ b) = true := by
  induction p with
  | nil => rfl
  | cons c p ih => simp [startsWith, ih]

/-- The empty pattern occurs in every text. -/
lemma containsSeq_nil_pat (cs : List Char) : containsSeq [] cs = true := by
  cases cs <;> simp [containsSeq, startsWith]

/-- A pattern occurs in any text that splits around it. -/
lemma containsSeq_split (p a b : List Char) : containsSeq p (a ++ p ++ b) = true := by
  induction a with
  | nil =>
    cases p with
    | nil => simpa using containsSeq_nil_pat b
    | cons x xs =>
      have h := startsWith_append_self (x :: xs) b
      rw [List.cons_append] at h
      simp [containsSeq, h]
  | cons c a ih =>
    simp only [containsSeq, List.cons_append, Bool.or_eq_true]
    exact Or.inr ih

/-- A text that splits around a comment marker is flagged by comment
detection. -/
lemma hasComment_of_split (cs a b : List Char)
    (h : cs = a ++ lineCommentMark ++ b ∨ cs = a ++ blockCommentMark ++ b) :
    hasComment cs = true := by
  rcases h with h | h <;> subst h
  · rw [hasComment, containsSeq_split, Bool.true_or]
  · rw [hasComment, containsSeq_split, Bool.or_true]

/-- C5 (amended): a candidate containing a line or block comment marker is
never turned into a SafeQuery, and when it passes the earlier statement-count
check the rejection reason is CommentDetected. -/
theorem comment_reject (al : List AllowlistEntry) (forbidden : List (List Char))
    (maxRows : Nat) (cs a b : List Char)
    (hsplit : cs = a ++ lineCommentMark ++ b ∨ cs = a ++ blockCommentMark ++ b) :
    (∀ sq, sanitize al forbidden maxRows cs ≠ .ok sq) ∧
    (scanSemis cs false = false →
      sanitize al forbidden maxRows cs = .reject .CommentDetected) := by
  have hC := hasComment_of_split cs a b hsplit
  constructor
  · intro sq hok
    cases h1 : scanSemis cs false with
    | true => simp [sanitize, h1] at hok
    | false => simp [sanitize, h1, hC] at hok
  · intro h1
    simp [sanitize, h1, hC]

/-- C5 witness: the scenario input SELECT name FROM sales -- comment is
rejected with CommentDetected. -/
theorem comment_reject_witness :
    sanitize alSales [] 100 inputComment = .reject .CommentDetected :=
  (comment_reject alSales [] 100 inputComment aComment bComment
    (Or.inl (by decide))).2 (by decide)

/-- C5 counterexample: SELECT * FROM sales; -- hi contains a line comment
marker but is rejected with MultiStatement, not CommentDetected, because the
statement-count check runs first; the claim as stated (reason CommentDetected
for every text containing a comment marker) fails. -/
theorem multistatement_preempts_comment_check :
    hasComment inputSemiComment = true ∧
    sanitize alSales [] 100 inputSemiComment = .reject .MultiStatement ∧
    sanitize alSales [] 100 inputSemiComment ≠ .reject .CommentDetected :=
  ⟨by decide, by decide, by decide⟩

/-! ## Decimal rendering: lemmas -/

/-- The digit character of a digit value below ten is a digit character. -/
lemma digitChar_isDigit (d : Nat) (hd : d < 10) : (digitChar d).isDigit = true := by
  interval_cases d <;> decide

/-- Rendering then reading a digit below ten is the identity. -/
lemma digitVal_digitChar (d : Nat) (hd : d < 10) : digitVal (digitChar d) = d := by
  interval_cases d <;> decide

/-- Digit characters are not whitespace. -/
lemma isDigit_nonWS (c : Char) (h : c.isDigit = true) : nonWS c = true := by
  simp only [nonWS, Bool.not_eq_true']
  cases hw : c.isWhitespace with
  | false => rfl
  | true =>
    exfalso
    simp only [Char.isWhitespace, Bool.or_eq_true, decide_eq_true_eq] at hw
    rcases hw with ((h' | h') | h') | h' <;> subst h' <;> exact absurd h (by decide)

/-- The fuel-driven renderer computes the reversed decimal digits. -/
lemma renderNatAux_eq (fuel : Nat) : ∀ (n : Nat) (acc : List Char), n ≤ fuel →
    renderNatAux fuel n acc = ((Nat.digits 10 n).map digitChar).reverse ++ acc := by
  induction fuel with
  | zero =>
    intro n acc h
    have h0 : n = 0 := Nat.le_zero.mp h
    subst h0
    simp [renderNatAux]
  | succ fuel ih =>
    intro n acc h
    by_cases h0 : n = 0
    · subst h0
      simp [renderNatAux]
    · rw [renderNatAux, if_neg h0]
      have hdiv : n / 10 ≤ fuel := by
        have := Nat.div_lt_self (Nat.pos_of_ne_zero h0) (by norm_num : 1 < 10)
        omega
      rw [ih (n / 10) _ hdiv]
      rw [Nat.digits_def' (by norm_num : 1 < 10) (Nat.pos_of_ne_zero h0)]
      simp [List.append_assoc]

/-- Rendering a positive number lists its decimal digits most-significant
first. -/
lemma renderNat_eq (n : Nat) (h : n ≠ 0) :
    renderNat n = ((Nat.digits 10 n).map digitChar).reverse := by
  rw [renderNat, if_neg h, renderNatAux_eq n n [] le_rfl, List.append_nil]

/-- A rendered number is never the empty string. -/
lemma renderNat_ne_nil (n : Nat) : renderNat n ≠ [] := by
  by_cases h : n = 0
  · subst h; decide
  · rw [renderNat_eq n h]
    simp only [ne_eq, List.reverse_eq_nil_iff, List.map_eq_nil_iff]
    exact Nat.digits_ne_nil_iff_ne_zero.mpr h

/-- Every character of a rendered number is a decimal digit. -/
lemma renderNat_all_digits (n : Nat) : (renderNat n).all Char.isDigit = true := by
  by_cases h : n = 0
  · subst h; decide
  · rw [renderNat_eq n h, List.all_eq_true]
    intro c hc
    rw [List.mem_reverse, List.mem_map] at hc
    obtain ⟨d, hd, rfl⟩ := hc
    exact digitChar_isDigit d (Nat.digits_lt_base (by norm_num) hd)

/-- No character of a rendered number is whitespace. -/
lemma renderNat_all_nonWS (n : Nat) : ∀ c ∈ renderNat n, nonWS c = true := by
  intro c hc
  exact isDigit_nonWS c (List.all_eq_true.mp (renderNat_all_digits n) c hc)

/-- Folding the base-ten step over reversed digits computes their value. -/
lemma foldl_digits_reverse (l : List ℕ) : ∀ a : ℕ,
    List.foldl (fun x d => x * 10 + d) a l.reverse =
      a * 10 ^ l.length + Nat.ofDigits 10 l := by
  induction l with
  | nil => intro a; simp
  | cons d L ih =>
    intro a
    rw [List.reverse_cons, List.foldl_append, ih a]
    simp only [List.foldl_cons, List.foldl_nil, Nat.ofDigits_cons, List.length_cons]
    rw [pow_succ]
    ring

/-- Reading back a rendered positive number recovers it. -/
lemma parseVal_renderNat (n : Nat) (h : n ≠ 0) : parseVal (renderNat n) = n := by
  rw [parseVal, renderNat_eq n h, ← List.map_reverse, List.foldl_map]
  have hcongr : ∀ (l : List ℕ) (a : ℕ), (∀ d ∈ l, d < 10) →
      List.foldl (fun x d => x * 10 + digitVal (digitChar d)) a l =
        List.foldl (fun x d => x * 10 + d) a l := by
    intro l
    induction l with
    | nil => intro a _; rfl
    | cons d L ihl =>
      intro a hlt
      simp only [List.foldl_cons]
      rw [digitVal_digitChar d (hlt d (List.mem_cons_self d L))]
      exact ihl _ (fun x hx => hlt x (List.mem_cons_of_mem d hx))
  rw [hcongr _ 0 (fun d hd => Nat.digits_lt_base (by norm_num) (List.mem_reverse.mp hd))]
  rw [foldl_digits_reverse]
  simp [Nat.ofDigits_digits]

/-- Parsing a rendered number succeeds and recovers the number. -/
lemma parseNat_renderNat (n : Nat) : parseNat (renderNat n) = some n := by
  by_cases h : n = 0
  · subst h; decide
  · rw [parseNat, if_pos ⟨renderNat_ne_nil n, renderNat_all_digits n⟩, parseVal_renderNat n h]

/-! ## Tokenizer: lemmas -/

/-- Tokenizing around a space splits into independent tokenizations. -/
lemma tokenizeAux_append_space (a : List Char) : ∀ (acc b : List Char),
    tokenizeAux (a ++ ' ' :: b) acc = tokenizeAux a acc ++ tokenizeAux b [] := by
  induction a with
  | nil =>
    intro acc b
    rw [List.nil_append]
    simp only [tokenizeAux]
    rw [if_pos (show (' ').isWhitespace = true by decide)]
  | cons c a ih =>
    intro acc b
    rw [List.cons_append]
    by_cases hc : c.isWhitespace = true
    · simp only [tokenizeAux, if_pos hc]
      rw [ih, List.append_assoc]
    · simp only [tokenizeAux, if_neg hc]
      exact ih (c :: acc) b

/-- A run of non-whitespace characters tokenizes to the single pending token. -/
lemma tokenizeAux_all_nonws (w : List Char) : ∀ acc : List Char,
    (∀ c ∈ w, nonWS c = true) → (acc = [] → w ≠ []) →
    tokenizeAux w acc = [acc.reverse ++ w] := by
  induction w with
  | nil =>
    intro acc _ hne
    have hacc : ¬ acc = [] := fun h => (hne h) rfl
    simp [tokenizeAux, hacc]
  | cons c w ih =>
    intro acc hw _
    have hcw : c.isWhitespace = false := by
      have := hw c (List.mem_cons_self c w)
      simpa [nonWS] using this
    simp only [tokenizeAux, hcw, Bool.false_eq_true, if_false]
    rw [ih (c :: acc) (fun x hx => hw x (List.mem_cons_of_mem c hx)) (by simp)]
    simp

/-- Every token produced by the tokenizer is non-empty and whitespace-free. -/
lemma tokenizeAux_wf (cs : List Char) : ∀ acc : List Char,
    (∀ c ∈ acc, nonWS c = true) →
    ∀ t ∈ tokenizeAux cs acc, t ≠ [] ∧ ∀ c ∈ t, nonWS c = true := by
  induction cs with
  | nil =>
    intro acc hacc t ht
    simp only [tokenizeAux] at ht
    by_cases h : acc = []
    · rw [if_pos h] at ht; simp at ht
    · rw [if_neg h] at ht
      simp only [List.mem_singleton] at ht
      subst ht
      exact ⟨by simpa using h, fun c hc => hacc c (List.mem_reverse.mp hc)⟩
  | cons c cs ih =>
    intro acc hacc t ht
    simp only [tokenizeAux] at ht
    by_cases hc : c.isWhitespace = true
    · rw [if_pos hc, List.mem_append] at ht
      rcases ht with ht | ht
      · by_cases h : acc = []
        · rw [if_pos h] at ht; simp at ht
        · rw [if_neg h] at ht
          simp only [List.mem_singleton] at ht
          subst ht
          exact ⟨by simpa using h, fun x hx => hacc x (List.mem_reverse.mp hx)⟩
      · exact ih [] (by simp) t ht
    · rw [if_neg hc] at ht
      refine ih (c :: acc) ?_ t ht
      intro x hx
      rcases List.mem_cons.mp hx with rfl | hx
      · simp [nonWS, hc]
      · exact hacc x hx

/-- Tokenizing the single-space join of well-formed tokens recovers them. -/
lemma tokenize_unwords (ts : List (List Char))
    (h : ∀ t ∈ ts, t ≠ [] ∧ ∀ c ∈ t, nonWS c = true) :
    tokenize (unwords ts) = ts := by
  induction ts with
  | nil => rfl
  | cons t ts ih =>
    obtain ⟨hne, hnw⟩ := h t (List.mem_cons_self t ts)
    cases ts with
    | nil =>
      show tokenizeAux t [] = [t]
      have := tokenizeAux_all_nonws t [] hnw (fun _ => hne)
      simpa using this
    | cons t2 ts2 =>
      have ih2 : tokenize (unwords (t2 :: ts2)) = t2 :: ts2 :=
        ih (fun x hx => h x (List.mem_cons_of_mem t hx))
      show tokenizeAux (t ++ ' ' :: unwords (t2 :: ts2)) [] = t :: t2 :: ts2
      rw [tokenizeAux_append_space]
      rw [tokenizeAux_all_nonws t [] hnw (fun _ => hne)]
      rw [show tokenizeAux (unwords (t2 :: ts2)) [] = t2 :: ts2 from ih2]
      simp

/-! ## LIMIT clause location: lemmas -/

/-- A LIMIT token followed by a rendered number is found with that value. -/
lemma findLimit_pair (m : Nat) : findLimit [kwLIMIT, renderNat m] = some m := by
  have hU : upperTok kwLIMIT = kwLIMIT := by decide
  simp [findLimit, hU, parseNat_renderNat m]

/-- A head token other than LIMIT does not affect the found clause. -/
lemma findLimit_cons_not_limit (t : List Char) (rest : List (List Char))
    (hL : ¬ upperTok t = kwLIMIT) : findLimit (t :: rest) = findLimit rest := by
  cases rest <;> simp [findLimit, hL]

/-- Appending a LIMIT clause to tokens holding none makes it the found clause. -/
lemma findLimit_none_append (toks : List (List Char)) (m : Nat)
    (h : findLimit toks = none) :
    findLimit (toks ++ [kwLIMIT, renderNat m]) = some m := by
  induction toks with
  | nil => rw [List.nil_append]; exact findLimit_pair m
  | cons t rest ih =>
    rw [List.cons_append]
    by_cases hL : upperTok t = kwLIMIT
    · cases rest with
      | nil =>
        have hpn : parseNat kwLIMIT = none := by decide
        simp only [findLimit, if_pos hL, List.nil_append, hpn]
        exact findLimit_pair m
      | cons v rest2 =>
        rw [findLimit, if_pos hL] at h
        cases hpv : parseNat v with
        | some k => rw [hpv] at h; simp at h
        | none =>
          rw [hpv] at h
          simp only [findLimit, if_pos hL, List.cons_append, hpv]
          exact ih h
    · rw [findLimit_cons_not_limit t rest hL] at h
      rw [findLimit_cons_not_limit t _ hL]
      exact ih h

/-- Rewriting the LIMIT value keeps the head token in place. -/
lemma replaceLimitVal_cons_head (m : Nat) (v : List Char) (r : List (List Char)) :
    ∃ r2, replaceLimitVal m (v :: r) = v :: r2 := by
  by_cases hL : upperTok v = kwLIMIT
  · cases r with
    | nil => exact ⟨[], by simp [replaceLimitVal, hL]⟩
    | cons w r2 =>
      cases hpw : parseNat w with
      | some k => exact ⟨renderNat m :: r2, by simp [replaceLimitVal, hL, hpw]⟩
      | none => exact ⟨replaceLimitVal m (w :: r2), by simp [replaceLimitVal, hL, hpw]⟩
  · exact ⟨replaceLimitVal m r, by simp [replaceLimitVal, hL]⟩

/-- After rewriting the LIMIT value down, the found clause is the ceiling. -/
lemma findLimit_replace (toks : List (List Char)) (m n : Nat)
    (h : findLimit toks = some n) :
    findLimit (replaceLimitVal m toks) = some m := by
  induction toks with
  | nil => simp [findLimit] at h
  | cons t rest ih =>
    by_cases hL : upperTok t = kwLIMIT
    · cases rest with
      | nil =>
        rw [findLimit, if_pos hL] at h
        simp at h
      | cons v rest2 =>
        rw [findLimit, if_pos hL] at h
        cases hpv : parseNat v with
        | some k =>
          have hrw : replaceLimitVal m (t :: v :: rest2) = t :: renderNat m :: rest2 := by
            simp [replaceLimitVal, hL, hpv]
          rw [hrw, findLimit, if_pos hL, parseNat_renderNat m]
        | none =>
          rw [hpv] at h
          have hrw : replaceLimitVal m (t :: v :: rest2) =
              t :: replaceLimitVal m (v :: rest2) := by
            simp [replaceLimitVal, hL, hpv]
          rw [hrw]
          obtain ⟨r2, hr2⟩ := replaceLimitVal_cons_head m v rest2
          rw [hr2, findLimit, if_pos hL, hpv, ← hr2]
          exact ih h
    · rw [findLimit_cons_not_limit t rest hL] at h
      have hrw : replaceLimitVal m (t :: rest) = t :: replaceLimitVal m rest := by
        simp [replaceLimitVal, hL]
      rw [hrw, findLimit_cons_not_limit t _ hL]
      exact ih h

/-- Rewriting the LIMIT value preserves well-formedness of the tokens. -/
lemma replaceLimitVal_wf (m : Nat) (toks : List (List Char))
    (h : ∀ t ∈ toks, t ≠ [] ∧ ∀ c ∈ t, nonWS c = true) :
    ∀ t ∈ replaceLimitVal m toks, t ≠ [] ∧ ∀ c ∈ t, nonWS c = true := by
  induction toks with
  | nil => simp [replaceLimitVal]
  | cons t rest ih =>
    intro x hx
    by_cases hL : upperTok t = kwLIMIT
    · cases rest with
      | nil =>
        simp only [replaceLimitVal, if_pos hL, List.mem_singleton] at hx
        subst hx
        exact h x (List.mem_cons_self x [])
      | cons v rest2 =>
        cases hpv : parseNat v with
        | some k =>
          simp only [replaceLimitVal, if_pos hL, hpv, List.mem_cons] at hx
          rcases hx with rfl | rfl | hx
          · exact h x (by simp)
          · exact ⟨renderNat_ne_nil m, renderNat_all_nonWS m⟩
          · exact h x (by simp [hx])
        | none =>
          simp only [replaceLimitVal, if_pos hL, hpv, List.mem_cons] at hx
          rcases hx with rfl | hx
          · exact h x (by simp)
          · exact ih (fun y hy => h y (List.mem_cons_of_mem t hy)) x hx
    · simp only [replaceLimitVal, if_neg hL, List.mem_cons] at hx
      rcases hx with rfl | hx
      · exact h x (by simp)
      · exact ih (fun y hy => h y (List.mem_cons_of_mem t hy)) x hx

/-- Tokenizing a statement with the limit suffix appended adds exactly the
LIMIT token and the rendered ceiling. -/
lemma tokenize_append_suffix (cs : List Char) (m : Nat) :
    tokenize (cs ++ limitSuffix m) = tokenize cs ++ [kwLIMIT, renderNat m] := by
  show tokenizeAux (cs ++ ' ' :: (kwLIMIT ++ ' ' :: renderNat m)) [] = _
  rw [tokenizeAux_append_space, tokenizeAux_append_space]
  rw [tokenizeAux_all_nonws kwLIMIT [] (by decide) (fun _ => by decide)]
  rw [tokenizeAux_all_nonws (renderNat m) [] (renderNat_all_nonWS m)
    (fun _ => renderNat_ne_nil m)]
  simp [tokenize]

/-- A statement already carrying a cap at or below the ceiling. -/
def inputCapped : List Char := "SELECT * FROM sales LIMIT 100".data

/-- C8: row-limit wrapping is idempotent on capped statements: a statement
already carrying a LIMIT clause at or below the configured ceiling passes
through row-limit wrapping unchanged. -/
theorem wrapLimit_idempotent_on_capped (maxRows : Nat) (cs : List Char) (n : Nat)
    (h1 : findLimit (tokenize cs) = some n) (h2 : n ≤ maxRows) :
    wrapLimit maxRows cs = cs := by
  rw [wrapLimit, h1]
  exact if_neg (by omega)

/-- C8 witness: wrapping SELECT * FROM sales LIMIT 100 again at ceiling 100
returns it unchanged. -/
theorem wrapLimit_idempotent_on_capped_witness :
    wrapLimit 100 inputCapped = inputCapped :=
  wrapLimit_idempotent_on_capped 100 inputCapped 100 (by decide) (by decide)

/-- Scenario input with no LIMIT clause. -/
def inputSales : List Char := "SELECT * FROM sales".data

/-- The SafeQuery produced for the scenario input at ceiling 100. -/
def sqSales : SafeQuery := ⟨"SELECT * FROM sales LIMIT 100".data, "sales".data, 100⟩

/-- C4: every statement accepted by the Sanitizer carries an explicit row cap
at or below the configured ceiling (the found LIMIT clause equals the
SafeQuery row limit); a statement with no LIMIT clause gets the suffix
appended with the ceiling as its cap, and a LIMIT above the ceiling is
rewritten down to the ceiling. -/
theorem sanitize_row_cap (al : List AllowlistEntry) (forbidden : List (List Char))
    (maxRows : Nat) (cs : List Char) (sq : SafeQuery)
    (h : sanitize al forbidden maxRows cs = .ok sq) :
    (findLimit (tokenize sq.statement) = some sq.row_limit ∧ sq.row_limit ≤ maxRows) ∧
    (findLimit (tokenize cs) = none →
      sq.statement = cs ++ limitSuffix maxRows ∧ sq.row_limit = maxRows) ∧
    (∀ n, findLimit (tokenize cs) = some n → maxRows < n → sq.row_limit = maxRows) := by
  have hsq : sq = ⟨wrapLimit maxRows cs, (extractTables (tokenize cs)).head?.getD [],
      capOf maxRows cs⟩ := by
    cases h1 : scanSemis cs false with
    | true => simp [sanitize, h1] at h
    | false =>
      cases h2 : hasComment cs with
      | true => simp [sanitize, h1, h2] at h
      | false =>
        cases h3 : verbOk cs with
        | false => simp [sanitize, h1, h2, h3] at h
        | true =>
          cases h4 : forbiddenHit forbidden cs with
          | true => simp [sanitize, h1, h2, h3, h4] at h
          | false =>
            cases h5 : tablesOk al cs with
            | false => simp [sanitize, h1, h2, h3, h4, h5] at h
            | true =>
              simp only [sanitize, h1, h2, h3, h4, h5] at h
              simp at h
              exact h.symm
  subst hsq
  dsimp only
  cases hf : findLimit (tokenize cs) with
  | none =>
    refine ⟨⟨?_, ?_⟩, ?_, ?_⟩
    · simp only [wrapLimit, capOf, hf]
      rw [tokenize_append_suffix]
      exact findLimit_none_append _ _ hf
    · simp only [capOf, hf]; exact le_rfl
    · intro _
      exact ⟨by simp only [wrapLimit, hf], by simp only [capOf, hf]⟩
    · intro n hn _
      exact Option.noConfusion hn
  | some k =>
    by_cases hk : maxRows < k
    · refine ⟨⟨?_, ?_⟩, ?_, ?_⟩
      · simp only [wrapLimit, capOf, hf, if_pos hk]
        have hwf : ∀ t ∈ tokenize cs, t ≠ [] ∧ ∀ c ∈ t, nonWS c = true :=
          tokenizeAux_wf cs [] (by simp)
        rw [tokenize_unwords _ (replaceLimitVal_wf maxRows _ hwf)]
        rw [show min k maxRows = maxRows by omega]
        exact findLimit_replace _ maxRows k hf
      · simp only [capOf, hf]; omega
      · intro hnone
        exact Option.noConfusion hnone
      · intro n hn _
        injection hn with hn
        subst hn
        simp only [capOf, hf]
        omega
    · refine ⟨⟨?_, ?_⟩, ?_, ?_⟩
      · simp only [wrapLimit, capOf, hf, if_neg hk]
        rw [show min k maxRows = k by omega]
      · simp only [capOf, hf]; omega
      · intro hnone
        exact Option.noConfusion hnone
      · intro n hn hlt
        injection hn with hn
        subst hn
        exact absurd hlt hk

/-- C4 witness: the scenario SELECT * FROM sales with allowlisted sales and
ceiling 100 yields SELECT * FROM sales LIMIT 100 with row limit 100. -/
theorem sanitize_row_cap_witness :
    sanitize alSales [] 100 inputSales = .ok sqSales ∧
    (findLimit (tokenize sqSales.statement) = some sqSales.row_limit ∧
      sqSales.row_limit ≤ 100) :=
  ⟨by decide, (sanitize_row_cap alSales [] 100 inputSales sqSales (by decide)).1⟩

/-! ## Token Bucket Limiter: lemmas -/

/-- One unit-cost acquire with zero elapsed time on a bucket holding a whole
number of tokens within capacity: it allows and deducts one token when at
least one is held, otherwise it denies with wait 1 divided by the refill
rate. -/
lemma acquire_zero_elapsed (C : ℤ) (m : ℕ) (R t0 : ℚ) (hm : (m : ℚ) ≤ (C : ℚ)) :
    acquire t0 1 ⟨C, (m : ℚ), R, t0⟩ =
      if 1 ≤ m then (.allowed, ⟨C, ((m - 1 : ℕ) : ℚ), R, t0⟩)
      else (.denied (1 / R), ⟨C, (m : ℚ), R, t0⟩) := by
  simp only [acquire, sub_self, zero_mul, add_zero]
  rw [min_eq_left hm]
  by_cases h1 : 1 ≤ m
  · rw [if_pos (show (1 : ℚ) ≤ (m : ℚ) by exact_mod_cast h1), if_pos h1]
    have e : (m : ℚ) - 1 = ((m - 1 : ℕ) : ℚ) := by
      push_cast [h1]
      ring
    rw [e]
  · have h0 : m = 0 := by omega
    subst h0
    rw [if_neg (show ¬ (1 : ℚ) ≤ ((0 : ℕ) : ℚ) by norm_num), if_neg h1]
    norm_num

/-- A run of unit-cost acquires at one instant on a full-capacity-bounded
bucket: the first tokens-many calls allow, the rest deny with the same wait,
and the final bucket holds the leftover tokens. -/
lemma acquireSeq_zero_elapsed (N : ℕ) : ∀ (C : ℤ) (m : ℕ) (R t0 : ℚ),
    (m : ℚ) ≤ (C : ℚ) →
    acquireSeq t0 N ⟨C, (m : ℚ), R, t0⟩ =
      (List.replicate (min N m) AcquireResult.allowed ++
        List.replicate (N - min N m) (AcquireResult.denied (1 / R)),
       ⟨C, ((m - min N m : ℕ) : ℚ), R, t0⟩) := by
  induction N with
  | zero =>
    intro C m R t0 hm
    simp [acquireSeq]
  | succ N ih =>
    intro C m R t0 hm
    rw [acquireSeq, acquire_zero_elapsed C m R t0 hm]
    by_cases h1 : 1 ≤ m
    · rw [if_pos h1]
      have hm1 : ((m - 1 : ℕ) : ℚ) ≤ (C : ℚ) :=
        le_trans (show ((m - 1 : ℕ) : ℚ) ≤ (m : ℚ) by exact_mod_cast Nat.sub_le m 1) hm
      rw [ih C (m - 1) R t0 hm1]
      have e1 : min (N + 1) m = min N (m - 1) + 1 := by omega
      rw [e1,
        show N + 1 - (min N (m - 1) + 1) = N - min N (m - 1) by omega,
        show m - (min N (m - 1) + 1) = m - 1 - min N (m - 1) by omega,
        List.replicate_succ, List.cons_append]
    · have h0 : m = 0 := by omega
      subst h0
      rw [if_neg h1]
      rw [ih C 0 R t0 hm]
      simp [List.replicate_succ]

/-- C6: on a fresh bucket of capacity C, a run of N unit-cost acquire calls
with zero elapsed time yields exactly min N C Allowed results followed by
N - min N C Denied results, and the token count of the final bucket is
neither negative nor above the capacity. -/
theorem limiter_conservation (C : ℕ) (R t0 : ℚ) (N : ℕ) :
    (acquireSeq t0 N (mkBucket C R t0)).1 =
      List.replicate (min N C) AcquireResult.allowed ++
        List.replicate (N - min N C) (AcquireResult.denied (1 / R)) ∧
    0 ≤ (acquireSeq t0 N (mkBucket C R t0)).2.tokens ∧
    (acquireSeq t0 N (mkBucket C R t0)).2.tokens ≤ ((mkBucket C R t0).capacity : ℚ) := by
  have h := acquireSeq_zero_elapsed N (C : ℤ) C R t0 (by push_cast; exact le_rfl)
  rw [show mkBucket C R t0 = ⟨(C : ℤ), (C : ℚ), R, t0⟩ from rfl, h]
  refine ⟨rfl, Nat.cast_nonneg _, ?_⟩
  push_cast
  exact_mod_cast Nat.cast_le.mpr (Nat.sub_le C (min N C))

/-! ## Query Orchestrator: rate-limit gating and sanitize-before-execute -/

/-- C7: when the global limiter denies, or the global limiter allows and the
per-tool limiter denies, the orchestrator returns RateLimited with the
retry-after hint and performs no LLM call and no database call; and on every
path, a database call only executes the statement of a SafeQuery produced by
the Sanitizer from the candidate text. -/
theorem orchestrator_rate_limit_gating (al : List AllowlistEntry)
    (forbidden : List (List Char)) (maxRows respCap : Nat) (gb tb : Bucket) (now : ℚ)
    (source : Source) (llmDraft : Option (List Char)) (raw : List Char)
    (db : List Char → Option QueryResult) (llmSum : Option (List Char)) :
    (∀ w, (acquire now 1 gb).1 = .denied w →
      orchestrate al forbidden maxRows respCap gb tb now source llmDraft raw db llmSum =
        (.RateLimited w, [])) ∧
    ((acquire now 1 gb).1 = .allowed → ∀ w, (acquire now 1 tb).1 = .denied w →
      orchestrate al forbidden maxRows respCap gb tb now source llmDraft raw db llmSum =
        (.RateLimited w, [])) ∧
    (∀ stmt,
      Effect.DbCall stmt ∈
        (orchestrate al forbidden maxRows respCap gb tb now source llmDraft raw db llmSum).2 →
      ∃ sq, sanitize al forbidden maxRows (candidateOf source llmDraft raw) = .ok sq ∧
        stmt = sq.statement) := by
  refine ⟨?_, ?_, ?_⟩
  · intro w hw
    rw [orchestrate.eq_def, hw]
  · intro hg w hw
    rw [orchestrate.eq_def, hg, hw]
  · intro stmt hm
    rw [orchestrate.eq_def] at hm
    cases hg : (acquire now 1 gb).1 with
    | denied w => rw [hg] at hm; simp at hm
    | allowed =>
      rw [hg] at hm
      cases ht : (acquire now 1 tb).1 with
      | denied w => rw [ht] at hm; simp at hm
      | allowed =>
        rw [ht] at hm
        cases source with
        | Manual =>
          cases hs : sanitize al forbidden maxRows raw with
          | reject r => rw [hs] at hm; simp at hm
          | ok sq =>
            rw [hs] at hm
            dsimp only at hm
            refine ⟨sq, hs, ?_⟩
            rw [runSafe.eq_def] at hm
            cases hdb : db sq.statement with
            | none => rw [hdb] at hm; simp at hm; exact hm
            | some qr => rw [hdb] at hm; simp at hm; exact hm
        | Generated =>
          cases hd : llmDraft with
          | none => rw [hd] at hm; simp at hm
          | some text =>
            rw [hd] at hm
            dsimp only at hm
            cases hs : sanitize al forbidden maxRows text with
            | reject r => rw [hs] at hm; simp at hm
            | ok sq =>
              rw [hs] at hm
              dsimp only at hm
              refine ⟨sq, hs, ?_⟩
              rw [runSafe.eq_def] at hm
              cases hdb : db sq.statement with
              | none => rw [hdb] at hm; simp at hm; exact hm
              | some qr => rw [hdb] at hm; simp at hm; exact hm

/-- A full per-tool bucket used by the C7 witness. -/
def fullBucket : Bucket := ⟨5, 5, 1, 0⟩

/-- C7 witness: with an exhausted global bucket the orchestrator returns
RateLimited with the denial hint and an empty effect list. -/
theorem orchestrator_rate_limit_gating_witness :
    orchestrate alSales [] 100 5 (mkBucket 0 1 0) fullBucket 0 Source.Manual none
      inputSales (fun _ => none) none = (.RateLimited 1, []) := by
  have hd : (acquire 0 1 (mkBucket 0 1 0)).1 = .denied 1 := by
    have h := acquire_zero_elapsed ((0 : ℕ) : ℤ) 0 1 0 (by norm_num)
    rw [show mkBucket 0 1 0 = ⟨((0 : ℕ) : ℤ), ((0 : ℕ) : ℚ), 1, 0⟩ from rfl, h]
    norm_num
  exact (orchestrator_rate_limit_gating alSales [] 100 5 (mkBucket 0 1 0) fullBucket 0
    Source.Manual none inputSales (fun _ => none) none).1 1 hd

/-! ## Frontend askMessage: guard and request shape -/

/-- C9: when the text trims to empty or a request is already in flight,
askMessage returns without posting any request and leaves the whole UI state
unchanged. -/
theorem askMessage_guard_noop (now : Nat) (text : List Char) (s : UIState)
    (fetchResult : Except (List Char) AskResponse)
    (stringify : List (List (List Char)) → List Char)
    (h : trimJS text = [] ∨ s.isWaiting = true) :
    askMessage now text s fetchResult stringify = (s, none) := by
  rcases h with h | h <;> simp [askMessage, h]

/-- A UI state with a request in flight, used by the C9 witness. -/
def waitingState : UIState :=
  ⟨"sales".data, ⟨[], "hello".data, 0⟩, "next".data, [], [], [], true⟩

/-- A non-empty input text used by the frontend witnesses. -/
def textHi : List Char := "hi".data

/-- C9 witness: with a request in flight, askMessage on the text hi changes
nothing and posts nothing. -/
theorem askMessage_guard_noop_witness :
    askMessage 0 textHi waitingState (.error []) (fun _ => []) = (waitingState, none) :=
  askMessage_guard_noop 0 textHi waitingState (.error []) (fun _ => []) (Or.inr rfl)

/-- C10: every request askMessage posts carries the trimmed input text as its
question, the constant 100 as max_rows, and the selected table as table_hint,
falling back to supplement_sales_weekly when no table is selected (the
AskRequest structure holds exactly these three fields). -/
theorem askMessage_request_fields (now : Nat) (text : List Char) (s : UIState)
    (fetchResult : Except (List Char) AskResponse)
    (stringify : List (List (List Char)) → List Char) (req : AskRequest)
    (h : (askMessage now text s fetchResult stringify).2 = some req) :
    req.question = trimJS text ∧ req.max_rows = 100 ∧
    req.table_hint =
      (if s.selectedTable = [] then defaultTableHint else s.selectedTable) := by
  rw [askMessage] at h
  by_cases hg : trimJS text = [] ∨ s.isWaiting = true
  · rw [if_pos hg] at h
    simp at h
  · rw [if_neg hg] at h
    cases fetchResult with
    | ok data =>
      simp only at h
      injection h with h
      subst h
      exact ⟨rfl, rfl, rfl⟩
    | error msg =>
      simp only at h
      injection h with h
      subst h
      exact ⟨rfl, rfl, rfl⟩

/-- An idle UI state with no table selected, used by the C10 witness. -/
def idleState : UIState :=
  ⟨[], ⟨[], "hello".data, 0⟩, textHi, [], [], [], false⟩

/-- The request posted by the C10 witness call. -/
def reqHi : AskRequest := ⟨textHi, defaultTableHint, 100⟩

/-- C10 witness: asking hi from the idle state with no table selected posts a
request whose question is the trimmed text, whose max_rows is 100 and whose
table_hint is the fallback table. -/
theorem askMessage_request_fields_witness :
    reqHi.question = trimJS textHi ∧ reqHi.max_rows = 100 ∧
    reqHi.table_hint =
      (if idleState.selectedTable = [] then defaultTableHint else idleState.selectedTable) :=
  askMessage_request_fields 0 textHi idleState (.error []) (fun _ => []) reqHi (by decide)
